import Mathlib

/-!
Verification of the MergePics photo-collage engine.

This file gives a shallow embedding, over exact rationals, of the layout,
compositing and interaction logic implemented in
src/components/PhotoCollage.tsx (and the size helper duplicated in
src/components/PuzzleBoard.tsx), and proves the documented properties of
that logic.  JavaScript floating-point arithmetic is idealised as exact
rational arithmetic, and Math.round is modelled by Mathlib's round
(both compute the floor of x + 1/2).
-/

namespace MergePics

/-- Output canvas size, the record returned by calculateOutputSize. -/
structure OutputSize where
  width : ℚ
  height : ℚ
deriving DecidableEq

/-- Embedding of calculateOutputSize (PhotoCollage.tsx lines 35-47).  The
source receives the aspect ratio as a string such as 16:9 and splits it into
the two numeric components w and h; the embedding takes the two parsed
components directly.  The branch condition w >= h is written h ≤ w. -/
def calculateOutputSize (w h resolution : ℚ) : OutputSize :=
  if h ≤ w then
    { width := resolution, height := ((round (resolution * h / w) : ℤ) : ℚ) }
  else
    { width := ((round (resolution * w / h) : ℤ) : ℚ), height := resolution }

/-- Embedding of calculateSize (PuzzleBoard.tsx lines 409-423), a verbatim
copy of calculateOutputSize kept in the size-selector component. -/
def calculateSize (w h resolution : ℚ) : OutputSize :=
  if h ≤ w then
    { width := resolution, height := ((round (resolution * h / w) : ℤ) : ℚ) }
  else
    { width := ((round (resolution * w / h) : ℤ) : ℚ), height := resolution }

/-- Error value the specification requires for invalid output
configuration.  No such error exists in the source. -/
inductive ConfigurationError where
  | nonPositiveInput
deriving DecidableEq

/-- Modelled from the spec (error-handling design): computeOutputSize is
required to fail with a ConfigurationError when aspectW, aspectH or
resolution is non-positive, and otherwise behave as calculateOutputSize.
This definition follows the specification's words; it is compared against
the source function calculateOutputSize, which performs no validation. -/
def computeOutputSizeSpec (w h resolution : ℚ) : Except ConfigurationError OutputSize :=
  if w ≤ 0 ∨ h ≤ 0 ∨ resolution ≤ 0 then
    Except.error ConfigurationError.nonPositiveInput
  else
    Except.ok (calculateOutputSize w h resolution)

/-- Template styles used by the renderer switch in PhotoCollage.tsx (the
string values polaroid, magazine, creative, with grid the default). -/
inductive TemplateStyle where
  | grid
  | polaroid
  | magazine
  | creative
deriving DecidableEq

/-- Per-image transform record (PhotoCollage.tsx lines 18-22). -/
structure ImageTransform where
  x : ℚ
  y : ℚ
  scale : ℚ
deriving DecidableEq

/-- Default transform for a newly added image, the record literal
x 0, y 0, scale 1 used throughout PhotoCollage.tsx. -/
def defaultTransform : ImageTransform := { x := 0, y := 0, scale := 1 }

/-- A partial transform update, modelling the TypeScript
Partial ImageTransform argument of updateImageTransform: each field is
either supplied or absent. -/
structure TransformPatch where
  x : Option ℚ := none
  y : Option ℚ := none
  scale : Option ℚ := none

/-- Spread-merge of a patch into a transform, modelling the object spread
of updateImageTransform (PhotoCollage.tsx line 389). -/
def applyPatch (t : ImageTransform) (p : TransformPatch) : ImageTransform :=
  { x := p.x.getD t.x, y := p.y.getD t.y, scale := p.scale.getD t.scale }

/-- Embedding of updateImageTransform (PhotoCollage.tsx lines 387-391):
map over the transform list, merging the patch at the given index and
leaving every other entry untouched. -/
def updateImageTransform (transforms : List ImageTransform) (index : ℕ)
    (p : TransformPatch) : List ImageTransform :=
  transforms.mapIdx fun i t => if i = index then applyPatch t p else t

/-- Embedding of resetImageTransform (PhotoCollage.tsx lines 397-399). -/
def resetImageTransform (transforms : List ImageTransform) (index : ℕ) :
    List ImageTransform :=
  updateImageTransform transforms index
    { x := some 0, y := some 0, scale := some 1 }

/-- Canvas drag state (PhotoCollage.tsx lines 24-30). -/
structure DragState where
  isDragging : Bool
  imageIndex : ℕ
  startX : ℚ
  startY : ℚ
  initialTransform : ImageTransform

/-- Embedding of handleCanvasDragMove (PhotoCollage.tsx lines 470-490):
when a drag is active, offset the drag-origin transform by half of the
pointer delta, clamp both coordinates to the range -100..100 and store
them through updateImageTransform. -/
def handleCanvasDragMove (dragState : Option DragState)
    (transforms : List ImageTransform) (clientX clientY : ℚ) :
    List ImageTransform :=
  match dragState with
  | none => transforms
  | some ds =>
    if ds.isDragging then
      let deltaX := clientX - ds.startX
      let deltaY := clientY - ds.startY
      let sensitivity : ℚ := 0.5
      let newX := ds.initialTransform.x + deltaX * sensitivity
      let newY := ds.initialTransform.y + deltaY * sensitivity
      let maxOffset : ℚ := 100
      let clampedX := max (-maxOffset) (min maxOffset newX)
      let clampedY := max (-maxOffset) (min maxOffset newY)
      updateImageTransform transforms ds.imageIndex
        { x := some clampedX, y := some clampedY }
    else transforms

/-- The x-position slider edit (PhotoCollage.tsx lines 661-668).  The
handler stores the slider value through updateImageTransform; the HTML
range input itself clamps its reported value to the element's min and max
attributes, which are -50 and 50 in the source, so the clamp models the
browser behaviour of that input element. -/
def sliderXChange (transforms : List ImageTransform) (selectedIndex : ℕ)
    (v : ℚ) : List ImageTransform :=
  updateImageTransform transforms selectedIndex
    { x := some (max (-50) (min 50 v)) }

/-- The y-position slider edit (PhotoCollage.tsx lines 669-676), with the
same min -50 and max 50 attributes as the x slider. -/
def sliderYChange (transforms : List ImageTransform) (selectedIndex : ℕ)
    (v : ℚ) : List ImageTransform :=
  updateImageTransform transforms selectedIndex
    { y := some (max (-50) (min 50 v)) }

/-- The scale slider edit (PhotoCollage.tsx lines 689-697), whose range
input has min 0.5 and max 2. -/
def sliderScaleChange (transforms : List ImageTransform) (selectedIndex : ℕ)
    (v : ℚ) : List ImageTransform :=
  updateImageTransform transforms selectedIndex
    { scale := some (max 0.5 (min 2 v)) }

/-- Embedding of the transform-reconciliation effect
(PhotoCollage.tsx lines 75-92): rebuild the transform list to the current
image count, keeping any previously existing entry at its index and using
the default transform for indices beyond the previous length. -/
def reconcileTransforms (prev : List ImageTransform) (numImages : ℕ) :
    List ImageTransform :=
  (List.range numImages).map fun index => (prev[index]?).getD defaultTransform

/-- JavaScript splice-and-insert reorder used by handleDragEnd: remove the
element at index i and re-insert it at index j.  Matches Array.prototype
splice semantics whenever i is within bounds and j is at most the length
of the shortened list, which holds for all thumbnail indices. -/
def spliceMove {α : Type} (l : List α) (i j : ℕ) : List α :=
  match l[i]? with
  | some a => (l.eraseIdx i).insertIdx j a
  | none => l

/-- Embedding of handleDragEnd (PhotoCollage.tsx lines 367-382): when both
a drag index and a drop index are set and differ, apply the identical
splice-and-insert move to the image list and to the transform list. -/
def handleDragEnd {α β : Type} (images : List α) (transforms : List β)
    (dragIndex dropIndex : Option ℕ) : List α × List β :=
  match dragIndex, dropIndex with
  | some i, some j =>
    if i ≠ j then (spliceMove images i j, spliceMove transforms i j)
    else (images, transforms)
  | _, _ => (images, transforms)

/-- The component state owned by the interaction logic: the image sequence
and the per-image transform list. -/
structure CollageState (α : Type) where
  images : List α
  imageTransforms : List ImageTransform

/-- State-level view of updateImageTransform: the React handler calls only
setImageTransforms, so the image sequence field is untouched. -/
def updateImageTransformState {α : Type} (s : CollageState α) (index : ℕ)
    (p : TransformPatch) : CollageState α :=
  { s with imageTransforms := updateImageTransform s.imageTransforms index p }

/-- Grid padding (drawCollage, PhotoCollage.tsx line 263): two percent of
the smaller canvas dimension. -/
def padding (os : OutputSize) : ℚ := min os.width os.height * 0.02

/-- Inter-cell gap (line 264): double padding for the polaroid style,
half padding otherwise. -/
def gap (os : OutputSize) (style : TemplateStyle) : ℚ :=
  if style = TemplateStyle.polaroid then padding os * 2 else padding os * 0.5

/-- Horizontal space left for cells (line 266). -/
def availableWidth (os : OutputSize) (cols : ℕ) (style : TemplateStyle) : ℚ :=
  os.width - padding os * 2 - gap os style * ((cols : ℚ) - 1)

/-- Vertical space left for cells (line 267). -/
def availableHeight (os : OutputSize) (rows : ℕ) (style : TemplateStyle) : ℚ :=
  os.height - padding os * 2 - gap os style * ((rows : ℚ) - 1)

/-- Cell width (line 269). -/
def cellWidth (os : OutputSize) (cols : ℕ) (style : TemplateStyle) : ℚ :=
  availableWidth os cols style / (cols : ℚ)

/-- Cell height (line 270). -/
def cellHeight (os : OutputSize) (rows : ℕ) (style : TemplateStyle) : ℚ :=
  availableHeight os rows style / (rows : ℚ)

/-- An axis-aligned rectangle in output-canvas coordinates. -/
structure Rect where
  x : ℚ
  y : ℚ
  w : ℚ
  h : ℚ
deriving DecidableEq

/-- The rectangle of grid cell (r, c), from the per-cell coordinates
x = padding + col * (cellWidth + gap), y = padding + row * (cellHeight +
gap) of drawCollage (lines 289-290) and getImageIndexAtPosition
(lines 432-433). -/
def cellRect (os : OutputSize) (rows cols : ℕ) (style : TemplateStyle)
    (r c : ℕ) : Rect :=
  { x := padding os + (c : ℚ) * (cellWidth os cols style + gap os style),
    y := padding os + (r : ℚ) * (cellHeight os rows style + gap os style),
    w := cellWidth os cols style,
    h := cellHeight os rows style }

/-- Row-major enumeration of the grid coordinates, matching the nested
row/col loops of drawCollage and getImageIndexAtPosition. -/
def cellList (rows cols : ℕ) : List (ℕ × ℕ) :=
  (List.range rows).flatMap fun r => (List.range cols).map fun c => (r, c)

/-- The sequence of cell rectangles of one render, in row-major order. -/
def computeCellRects (os : OutputSize) (rows cols : ℕ)
    (style : TemplateStyle) : List Rect :=
  (cellList rows cols).map fun rc => cellRect os rows cols style rc.1 rc.2

/-- The closed point set covered by a rectangle. -/
def Rect.toSet (rect : Rect) : Set (ℚ × ℚ) :=
  {pt | rect.x ≤ pt.1 ∧ pt.1 ≤ rect.x + rect.w ∧
        rect.y ≤ pt.2 ∧ pt.2 ≤ rect.y + rect.h}

/-- The open interior of a rectangle. -/
def Rect.interiorPts (rect : Rect) : Set (ℚ × ℚ) :=
  {pt | rect.x < pt.1 ∧ pt.1 < rect.x + rect.w ∧
        rect.y < pt.2 ∧ pt.2 < rect.y + rect.h}

/-- The canvas area inside the padding margin. -/
def paddedRegion (os : OutputSize) : Set (ℚ × ℚ) :=
  {pt | padding os ≤ pt.1 ∧ pt.1 ≤ os.width - padding os ∧
        padding os ≤ pt.2 ∧ pt.2 ≤ os.height - padding os}

/-- The inclusive containment test of getImageIndexAtPosition
(lines 435-436). -/
def containsPoint (rect : Rect) (px py : ℚ) : Bool :=
  decide (rect.x ≤ px ∧ px ≤ rect.x + rect.w ∧
          rect.y ≤ py ∧ py ≤ rect.y + rect.h)

/-- Embedding of getImageIndexAtPosition (PhotoCollage.tsx lines 404-443):
convert the screen point to canvas coordinates through the displayed-size
to output-size scale factors, then scan the grid cells in row-major order,
skipping cells whose index has no image, and return the first cell whose
rectangle contains the point, or -1 when none does. -/
def getImageIndexAtPosition (offsetWidth offsetHeight w h resolution : ℚ)
    (rows cols : ℕ) (style : TemplateStyle) (numImages : ℕ)
    (x y : ℚ) : ℤ :=
  let outputSize := calculateOutputSize w h resolution
  let scaleX := offsetWidth / outputSize.width
  let scaleY := offsetHeight / outputSize.height
  let canvasX := x / scaleX
  let canvasY := y / scaleY
  match (cellList rows cols).find? (fun rc =>
      decide (rc.1 * cols + rc.2 < numImages) &&
      containsPoint (cellRect outputSize rows cols style rc.1 rc.2)
        canvasX canvasY) with
  | some rc => ((rc.1 * cols + rc.2 : ℕ) : ℤ)
  | none => -1

/-- The exact center point of grid cell (r, c), in output-canvas
coordinates. -/
def cellCenter (os : OutputSize) (rows cols : ℕ) (style : TemplateStyle)
    (r c : ℕ) : ℚ × ℚ :=
  ((cellRect os rows cols style r c).x + cellWidth os cols style / 2,
   (cellRect os rows cols style r c).y + cellHeight os rows style / 2)

/-- The loaded-image list built by drawCollage (lines 274-283): each of
the first min(images, slots) sources either resolves to an image or
rejects; rejected loads are skipped, so successes are compacted in
order. -/
def loadedImages {α : Type} (loadResults : List (Option α))
    (totalSlots : ℕ) : List α :=
  (loadResults.take (min loadResults.length totalSlots)).filterMap id

/-- What one grid cell displays after a render. -/
inductive CellContent (α : Type) where
  | image (img : α) (t : ImageTransform)
  | placeholder (slotNumber : ℕ)
deriving DecidableEq

/-- The per-cell draw decision of drawCollage (lines 286-338): cell
(r, c) with linear index r * cols + c shows the image at that index of
the loaded list when both the image and its transform exist, and the
numbered empty placeholder otherwise. -/
def cellContent {α : Type} (loaded : List α)
    (transforms : List ImageTransform) (cols : ℕ) (r c : ℕ) :
    CellContent α :=
  match loaded[r * cols + c]?, transforms[r * cols + c]? with
  | some img, some t => CellContent.image img t
  | _, _ => CellContent.placeholder (r * cols + c + 1)

/-- The watermark condition of drawCollage (line 342): the watermark text
is stamped exactly when the loaded-image list is non-empty. -/
def watermarkDrawn {α : Type} (loaded : List α) : Bool :=
  decide (0 < loaded.length)

/-! ## General list lemmas used by several proofs -/

/-- Indexing into mapIdx: the entry at index i is f i applied to the
original entry. -/
theorem getElem?_mapIdx_eq {α β : Type} (l : List α) (f : ℕ → α → β) (i : ℕ) :
    (l.mapIdx f)[i]? = (l[i]?).map (f i) := by
  by_cases h : i < l.length
  · have h' : i < (l.mapIdx f).length := by simpa [List.length_mapIdx] using h
    rw [List.getElem?_eq_getElem h', List.getElem?_eq_getElem h]
    have := List.get_mapIdx l f i h
    simpa [List.get_eq_getElem] using this
  · have h1 : (l.mapIdx f).length ≤ i := by
      simpa [List.length_mapIdx] using Nat.le_of_not_lt h
    rw [List.getElem?_eq_none h1, List.getElem?_eq_none (Nat.le_of_not_lt h)]
    rfl

/-- A list is a permutation of its i-th element consed onto the removal of
that element. -/
theorem perm_cons_getElem_eraseIdx {α : Type} :
    ∀ (l : List α) (i : ℕ) (h : i < l.length),
      List.Perm l (l.get ⟨i, h⟩ :: l.eraseIdx i)
  | _ :: _, 0, _ => List.Perm.refl _
  | a :: l, i + 1, h => by
    have hi : i < l.length := by simpa using h
    have ih := perm_cons_getElem_eraseIdx l i hi
    have h1 : List.Perm (a :: l) (a :: l.get ⟨i, hi⟩ :: l.eraseIdx i) :=
      List.Perm.cons a ih
    have h2 : List.Perm (a :: l.get ⟨i, hi⟩ :: l.eraseIdx i)
        (l.get ⟨i, hi⟩ :: a :: l.eraseIdx i) := List.Perm.swap _ _ _
    simpa [List.eraseIdx_cons_succ] using h1.trans h2

/-- The splice-and-insert move is a permutation when both indices are in
bounds. -/
theorem spliceMove_perm {α : Type} (l : List α) (i j : ℕ)
    (hi : i < l.length) (hj : j < l.length) :
    List.Perm (spliceMove l i j) l := by
  rw [spliceMove, List.getElem?_eq_getElem hi]
  have hj' : j ≤ (l.eraseIdx i).length := by
    rw [List.length_eraseIdx_of_lt hi]
    omega
  have h1 : List.Perm ((l.eraseIdx i).insertIdx j l[i]) (l[i] :: l.eraseIdx i) :=
    List.perm_insertIdx _ _ hj'
  have h2 := (perm_cons_getElem_eraseIdx l i hi).symm
  rw [List.get_eq_getElem] at h2
  exact h1.trans h2

/-- Erasing an index commutes with zipping. -/
theorem zip_eraseIdx {α β : Type} :
    ∀ (l : List α) (t : List β) (i : ℕ),
      (l.zip t).eraseIdx i = (l.eraseIdx i).zip (t.eraseIdx i)
  | [], _, _ => by simp
  | _ :: _, [], _ => by simp [List.eraseIdx]
  | _ :: _, _ :: _, 0 => by simp
  | a :: l, b :: t, i + 1 => by
    simp [List.zip_cons_cons, List.eraseIdx_cons_succ, zip_eraseIdx l t i]

/-- Inserting a pair commutes with zipping, for equal-length lists and an
in-bounds index. -/
theorem zip_insertIdx {α β : Type} :
    ∀ (l : List α) (t : List β) (a : α) (b : β) (j : ℕ),
      j ≤ l.length → l.length = t.length →
      (l.zip t).insertIdx j (a, b) = (l.insertIdx j a).zip (t.insertIdx j b)
  | _, _, _, _, 0, _, _ => by simp
  | [], _, _, _, j + 1, hj, _ => by simp at hj
  | _ :: _, [], _, _, _ + 1, _, hlen => by simp at hlen
  | x :: l, y :: t, a, b, j + 1, hj, hlen => by
    simp only [List.zip_cons_cons, List.insertIdx_succ_cons, List.cons.injEq,
      true_and]
    exact zip_insertIdx l t a b j (by simpa using hj) (by simpa using hlen)

/-- The splice-and-insert move commutes with zipping, so applying the same
move to two parallel lists moves their paired entries together. -/
theorem zip_spliceMove {α β : Type} (l : List α) (t : List β) (i j : ℕ)
    (hi : i < l.length) (hj : j < l.length) (hlen : l.length = t.length) :
    spliceMove (l.zip t) i j = (spliceMove l i j).zip (spliceMove t i j) := by
  have hit : i < t.length := hlen ▸ hi
  have hiz : i < (l.zip t).length := by
    rw [List.length_zip]
    omega
  have hz2 : (l.zip t)[i]? = some (l[i], t[i]) := by
    rw [List.getElem?_eq_getElem hiz, List.getElem_zip]
  rw [spliceMove, spliceMove, spliceMove, List.getElem?_eq_getElem hi,
    List.getElem?_eq_getElem hit, hz2, zip_eraseIdx l t i]
  exact zip_insertIdx (l.eraseIdx i) (t.eraseIdx i) l[i] t[i] j
    (by rw [List.length_eraseIdx_of_lt hi]; omega)
    (by rw [List.length_eraseIdx_of_lt hi, List.length_eraseIdx_of_lt hit, hlen])

/-! ## Claims C1 and C7: output-size computation -/

/-- C1: for every aspect ratio with aspectW ≥ aspectH, calculateOutputSize
returns width = resolution and height = round(resolution × aspectH /
aspectW); when aspectH > aspectW it returns height = resolution and
width = round(resolution × aspectW / aspectH); and the copy calculateSize
in PuzzleBoard.tsx computes the same function. -/
theorem c1_output_size (w h resolution : ℚ) (hw : 0 < w) (hh : 0 < h) :
    (h ≤ w → calculateOutputSize w h resolution =
      { width := resolution, height := ((round (resolution * h / w) : ℤ) : ℚ) })
    ∧ (w < h → calculateOutputSize w h resolution =
      { width := ((round (resolution * w / h) : ℤ) : ℚ), height := resolution })
    ∧ calculateSize w h resolution = calculateOutputSize w h resolution := by
  refine ⟨fun hle => ?_, fun hlt => ?_, rfl⟩
  · rw [calculateOutputSize, if_pos hle]
  · rw [calculateOutputSize, if_neg (not_le.mpr hlt)]

/-- Witness for C1 at the 16:9 aspect ratio and resolution 1080. -/
theorem c1_output_size_witness :
    (0 : ℚ) < 16 ∧ (0 : ℚ) < 9 ∧ (9 : ℚ) ≤ 16 ∧
      calculateOutputSize 16 9 1080 =
        { width := 1080, height := ((round ((1080 : ℚ) * 9 / 16) : ℤ) : ℚ) } :=
  ⟨by norm_num, by norm_num, by norm_num,
    (c1_output_size 16 9 1080 (by norm_num) (by norm_num)).1 (by norm_num)⟩

/-- C7 counterexample: at aspect ratio 1:1 and resolution 0 (a non-positive
resolution) the source function returns the size 0 × 0 instead of failing;
the specification-modelled checked function fails there, so the source
does not implement the required validation. -/
theorem c7_counterexample :
    calculateOutputSize 1 1 0 = { width := 0, height := 0 } ∧
      computeOutputSizeSpec 1 1 0 =
        Except.error ConfigurationError.nonPositiveInput := by
  constructor
  · rw [calculateOutputSize, if_pos (by norm_num)]
    norm_num [round_eq]
  · rw [computeOutputSizeSpec, if_pos (by norm_num)]

/-- C7 amended: calculateOutputSize performs no validation at all; even
for a non-positive resolution (with a positive aspect ratio) it returns
the size computed by the same rounding formulas and never an error. -/
theorem c7_amended (w h resolution : ℚ) (hw : 0 < w) (hh : 0 < h)
    (hres : resolution ≤ 0) :
    calculateOutputSize w h resolution =
      if h ≤ w then
        { width := resolution, height := ((round (resolution * h / w) : ℤ) : ℚ) }
      else
        { width := ((round (resolution * w / h) : ℤ) : ℚ), height := resolution } :=
  rfl

/-- Witness for the amended C7 at aspect ratio 1:1 and resolution 0. -/
theorem c7_amended_witness :
    (0 : ℚ) < 1 ∧ (0 : ℚ) ≤ 0 ∧
      calculateOutputSize 1 1 0 =
        if (1 : ℚ) ≤ 1 then
          { width := 0, height := ((round ((0 : ℚ) * 1 / 1) : ℤ) : ℚ) }
        else
          { width := ((round ((0 : ℚ) * 1 / 1) : ℤ) : ℚ), height := 0 } :=
  ⟨by norm_num, le_refl 0, c7_amended 1 1 0 (by norm_num) (by norm_num) (le_refl 0)⟩

/-! ## Claims C3, C4, C5, C8, C10: interaction controller -/

/-- Updating the transform at one index leaves every other index
untouched. -/
theorem updateImageTransform_ne (transforms : List ImageTransform)
    (i j : ℕ) (p : TransformPatch) (hji : j ≠ i) :
    (updateImageTransform transforms i p)[j]? = transforms[j]? := by
  rw [updateImageTransform, getElem?_mapIdx_eq]
  cases transforms[j]? <;> simp [hji]

/-- Reading back the patched entry. -/
theorem updateImageTransform_eq (transforms : List ImageTransform)
    (i : ℕ) (p : TransformPatch) (t : ImageTransform)
    (ht : transforms[i]? = some t) :
    (updateImageTransform transforms i p)[i]? = some (applyPatch t p) := by
  rw [updateImageTransform, getElem?_mapIdx_eq, ht]
  simp

/-- C3: a thumbnail drop from index i onto index j performs
splice-and-insert on the image list, leaving its multiset unchanged, and
applies the identical move to the transform list so each transform stays
paired with its image; dropping onto the source index changes nothing;
and moving index 0 to index 2 in a three-element list produces the
rotation predicted by the specification. -/
theorem c3_reorder {α β : Type} (images : List α) (transforms : List β)
    (i j : ℕ) (hi : i < images.length) (hj : j < images.length)
    (hlen : images.length = transforms.length) :
    List.Perm (handleDragEnd images transforms (some i) (some j)).1 images
    ∧ List.Perm (handleDragEnd images transforms (some i) (some j)).2 transforms
    ∧ spliceMove (images.zip transforms) i j
        = (spliceMove images i j).zip (spliceMove transforms i j)
    ∧ handleDragEnd images transforms (some i) (some i) = (images, transforms)
    ∧ handleDragEnd (α := ℕ) (β := ℕ) [10, 20, 30] [0, 1, 2] (some 0) (some 2)
        = ([20, 30, 10], [1, 2, 0]) := by
  have hit : i < transforms.length := hlen ▸ hi
  have hjt : j < transforms.length := hlen ▸ hj
  refine ⟨?_, ?_, zip_spliceMove images transforms i j hi hj hlen, ?_, by decide⟩
  · by_cases hij : i = j
    · subst hij
      simp [handleDragEnd]
    · simp only [handleDragEnd, ne_eq, hij, not_false_eq_true, if_true]
      exact spliceMove_perm images i j hi hj
  · by_cases hij : i = j
    · subst hij
      simp [handleDragEnd]
    · simp only [handleDragEnd, ne_eq, hij, not_false_eq_true, if_true]
      exact spliceMove_perm transforms i j hit hjt
  · simp [handleDragEnd]

/-- Witness for C3 on a concrete three-element state. -/
theorem c3_reorder_witness :
    ((0 : ℕ) < 3 ∧ (2 : ℕ) < 3 ∧
      ([1, 2, 3] : List ℕ).length = ([4, 5, 6] : List ℕ).length) ∧
    List.Perm (handleDragEnd ([1, 2, 3] : List ℕ) ([4, 5, 6] : List ℕ)
      (some 0) (some 2)).1 [1, 2, 3] :=
  ⟨⟨by decide, by decide, rfl⟩,
    (c3_reorder [1, 2, 3] [4, 5, 6] 0 2 (by decide) (by decide) rfl).1⟩

/-- C4: during an active canvas drag, a pointer move sets the dragged
image's x to the clamp of origin.x plus half the pointer delta into
-100..100, analogously for y, and leaves the scale unchanged. -/
theorem c4_drag_move (ds : DragState) (transforms : List ImageTransform)
    (clientX clientY : ℚ) (t : ImageTransform)
    (hactive : ds.isDragging = true)
    (ht : transforms[ds.imageIndex]? = some t) :
    (handleCanvasDragMove (some ds) transforms clientX clientY)[ds.imageIndex]? =
      some { x := max (-100)
                (min 100 (ds.initialTransform.x + (clientX - ds.startX) * 0.5)),
             y := max (-100)
                (min 100 (ds.initialTransform.y + (clientY - ds.startY) * 0.5)),
             scale := t.scale } := by
  rw [handleCanvasDragMove]
  simp only [hactive, if_true]
  rw [updateImageTransform_eq transforms ds.imageIndex _ t ht]
  rfl

/-- Witness for C4: a drag from origin transform x 5, y 5, scale 3/2, with
a pointer move of +300 in x and -300 in y, clamps to 100 and -100. -/
theorem c4_drag_move_witness :
    (({ isDragging := true, imageIndex := 0, startX := 0, startY := 0,
        initialTransform := { x := 5, y := 5, scale := 3/2 } } : DragState).isDragging
        = true)
    ∧ ([({ x := 5, y := 5, scale := 3/2 } : ImageTransform)][(0 : ℕ)]?
        = some { x := 5, y := 5, scale := 3/2 })
    ∧ (handleCanvasDragMove
        (some { isDragging := true, imageIndex := 0, startX := 0, startY := 0,
                initialTransform := { x := 5, y := 5, scale := 3/2 } })
        [{ x := 5, y := 5, scale := 3/2 }] 300 (-300))[(0 : ℕ)]? =
      some { x := max (-100) (min 100 ((5 : ℚ) + (300 - 0) * 0.5)),
             y := max (-100) (min 100 ((5 : ℚ) + (-300 - 0) * 0.5)),
             scale := 3/2 } :=
  ⟨rfl, rfl,
    c4_drag_move _ [{ x := 5, y := 5, scale := 3/2 }] 300 (-300)
      { x := 5, y := 5, scale := 3/2 } rfl rfl⟩

/-- C5: slider edits write to the selected image's transform with the
range input's clamping, so the stored x and y always lie in -100..100 and
the stored scale in 0.5..2; in particular a scale input of 3 stores 2. -/
theorem c5_slider_clamp (transforms : List ImageTransform) (i : ℕ) (v : ℚ)
    (t : ImageTransform) (ht : transforms[i]? = some t) :
    (sliderXChange transforms i v)[i]? = some { t with x := max (-50) (min 50 v) }
    ∧ (∀ t', (sliderXChange transforms i v)[i]? = some t' →
        (-100 : ℚ) ≤ t'.x ∧ t'.x ≤ 100)
    ∧ (∀ t', (sliderYChange transforms i v)[i]? = some t' →
        (-100 : ℚ) ≤ t'.y ∧ t'.y ≤ 100)
    ∧ (∀ t', (sliderScaleChange transforms i v)[i]? = some t' →
        (0.5 : ℚ) ≤ t'.scale ∧ t'.scale ≤ 2)
    ∧ (sliderScaleChange transforms i 3)[i]? = some { t with scale := 2 } := by
  have hx : (sliderXChange transforms i v)[i]?
      = some { t with x := max (-50) (min 50 v) } := by
    rw [sliderXChange, updateImageTransform_eq transforms i _ t ht]
    rfl
  have hy : (sliderYChange transforms i v)[i]?
      = some { t with y := max (-50) (min 50 v) } := by
    rw [sliderYChange, updateImageTransform_eq transforms i _ t ht]
    rfl
  have hs : ∀ w : ℚ, (sliderScaleChange transforms i w)[i]?
      = some { t with scale := max 0.5 (min 2 w) } := by
    intro w
    rw [sliderScaleChange, updateImageTransform_eq transforms i _ t ht]
    rfl
  refine ⟨hx, ?_, ?_, ?_, ?_⟩
  · intro t' ht'
    rw [hx] at ht'
    cases ht'
    constructor
    · calc (-100 : ℚ) ≤ -50 := by norm_num
        _ ≤ max (-50) (min 50 v) := le_max_left _ _
    · exact max_le (by norm_num) ((min_le_left _ _).trans (by norm_num))
  · intro t' ht'
    rw [hy] at ht'
    cases ht'
    constructor
    · calc (-100 : ℚ) ≤ -50 := by norm_num
        _ ≤ max (-50) (min 50 v) := le_max_left _ _
    · exact max_le (by norm_num) ((min_le_left _ _).trans (by norm_num))
  · intro t' ht'
    rw [hs v] at ht'
    cases ht'
    exact ⟨le_max_left _ _, max_le (by norm_num) (min_le_left _ _)⟩
  · rw [hs 3]
    norm_num

/-- Witness for C5 on a singleton transform list. -/
theorem c5_slider_clamp_witness :
    ([defaultTransform][(0 : ℕ)]? = some defaultTransform)
    ∧ (sliderScaleChange [defaultTransform] 0 3)[(0 : ℕ)]? =
        some { defaultTransform with scale := 2 } :=
  ⟨rfl, (c5_slider_clamp [defaultTransform] 0 3 defaultTransform rfl).2.2.2.2⟩

/-- C8: reconciling the transform list to a new image count keeps every
previously existing entry at its index, fills indices beyond the old
length with the default transform, and discards entries beyond the new
length. -/
theorem c8_reconcile (prev : List ImageTransform) (n : ℕ) :
    (reconcileTransforms prev n).length = n
    ∧ (∀ i, i < n → i < prev.length → (reconcileTransforms prev n)[i]? = prev[i]?)
    ∧ (∀ i, prev.length ≤ i → i < n →
        (reconcileTransforms prev n)[i]? = some defaultTransform)
    ∧ (∀ i, n ≤ i → (reconcileTransforms prev n)[i]? = none) := by
  refine ⟨by simp [reconcileTransforms], ?_, ?_, ?_⟩
  · intro i hin hip
    rw [reconcileTransforms, List.getElem?_map, List.getElem?_range hin]
    simp [List.getElem?_eq_getElem hip]
  · intro i hp hn
    rw [reconcileTransforms, List.getElem?_map, List.getElem?_range hn]
    simp [List.getElem?_eq_none hp]
  · intro i hni
    rw [reconcileTransforms, List.getElem?_map,
      List.getElem?_eq_none (by simpa using hni)]
    rfl

/-- Witness for C8: one old transform, grown to two images. -/
theorem c8_reconcile_witness :
    ((0 : ℕ) < 2 ∧ (0 : ℕ) < 1 ∧ (1 : ℕ) ≤ 1 ∧ (1 : ℕ) < 2) ∧
    (reconcileTransforms [{ x := 7, y := 8, scale := 2 }] 2)[(0 : ℕ)]?
        = [({ x := 7, y := 8, scale := 2 } : ImageTransform)][(0 : ℕ)]?
    ∧ (reconcileTransforms [{ x := 7, y := 8, scale := 2 }] 2)[(1 : ℕ)]?
        = some defaultTransform :=
  ⟨⟨by decide, by decide, by decide, by decide⟩,
    (c8_reconcile [{ x := 7, y := 8, scale := 2 }] 2).2.1 0 (by decide) (by decide),
    (c8_reconcile [{ x := 7, y := 8, scale := 2 }] 2).2.2.1 1 (by decide) (by decide)⟩

/-- C10: every transform edit (direct patch, canvas drag move, reset,
slider change) leaves the transform at every other index unchanged, and
the state-level update leaves the image sequence untouched. -/
theorem c10_frame {α : Type} (s : CollageState α)
    (transforms : List ImageTransform) (i j : ℕ) (p : TransformPatch)
    (ds : DragState) (clientX clientY v : ℚ)
    (hji : j ≠ i) (hds : ds.imageIndex = i) :
    (updateImageTransformState s i p).images = s.images
    ∧ (updateImageTransform transforms i p)[j]? = transforms[j]?
    ∧ (handleCanvasDragMove (some ds) transforms clientX clientY)[j]?
        = transforms[j]?
    ∧ (resetImageTransform transforms i)[j]? = transforms[j]?
    ∧ (sliderXChange transforms i v)[j]? = transforms[j]?
    ∧ (sliderYChange transforms i v)[j]? = transforms[j]?
    ∧ (sliderScaleChange transforms i v)[j]? = transforms[j]? := by
  refine ⟨rfl, updateImageTransform_ne transforms i j p hji, ?_,
    updateImageTransform_ne transforms i j _ hji,
    updateImageTransform_ne transforms i j _ hji,
    updateImageTransform_ne transforms i j _ hji,
    updateImageTransform_ne transforms i j _ hji⟩
  rw [handleCanvasDragMove]
  by_cases hact : ds.isDragging
  · simp only [hact, if_true]
    exact updateImageTransform_ne transforms ds.imageIndex j _ (hds ▸ hji)
  · simp [hact]

/-- Witness for C10 at concrete indices 1 and 0. -/
theorem c10_frame_witness :
    ((1 : ℕ) ≠ 0 ∧
      ({ isDragging := true, imageIndex := 0, startX := 0, startY := 0,
         initialTransform := defaultTransform } : DragState).imageIndex = 0) ∧
    (updateImageTransform [defaultTransform, { x := 7, y := 8, scale := 2 }] 0
        { x := some 1 })[(1 : ℕ)]?
      = [defaultTransform, ({ x := 7, y := 8, scale := 2 } : ImageTransform)][(1 : ℕ)]? :=
  ⟨⟨by decide, rfl⟩,
    (c10_frame { images := ([] : List ℕ), imageTransforms := [] }
      [defaultTransform, { x := 7, y := 8, scale := 2 }] 0 1 { x := some 1 }
      { isDragging := true, imageIndex := 0, startX := 0, startY := 0,
        initialTransform := defaultTransform } 0 0 0 (by decide) rfl).2.1⟩

/-! ## Claim C2: cell-rectangle geometry -/

/-- Padding is positive on a canvas with positive dimensions. -/
theorem padding_pos (os : OutputSize) (hW : 0 < os.width)
    (hH : 0 < os.height) : 0 < padding os := by
  rw [padding]
  have hm : 0 < min os.width os.height := lt_min hW hH
  nlinarith

/-- The gap is positive whenever the padding is. -/
theorem gap_pos (os : OutputSize) (style : TemplateStyle)
    (hp : 0 < padding os) : 0 < gap os style := by
  rw [gap]
  split <;> nlinarith

/-- Unfolding the row-major enumeration by one row. -/
theorem cellList_succ (rows cols : ℕ) :
    cellList (rows + 1) cols =
      cellList rows cols ++ (List.range cols).map fun c => (rows, c) := by
  rw [cellList, List.range_succ, List.flatMap_append, cellList]
  simp

/-- The enumeration has exactly rows * cols entries. -/
theorem length_cellList (rows cols : ℕ) :
    (cellList rows cols).length = rows * cols := by
  induction rows with
  | zero => simp [cellList]
  | succ n ih =>
    rw [cellList_succ, List.length_append, ih, List.length_map,
      List.length_range]
    ring

/-- Membership in the enumeration is exactly the grid bounds. -/
theorem mem_cellList {rows cols : ℕ} {rc : ℕ × ℕ} :
    rc ∈ cellList rows cols ↔ rc.1 < rows ∧ rc.2 < cols := by
  obtain ⟨r, c⟩ := rc
  simp only [cellList, List.mem_flatMap, List.mem_map, List.mem_range,
    Prod.mk.injEq]
  constructor
  · rintro ⟨a, ha, b, hb, rfl, rfl⟩
    exact ⟨ha, hb⟩
  · rintro ⟨hr, hc⟩
    exact ⟨r, hr, c, hc, rfl, rfl⟩

/-- The entry at linear index r * cols + c of the enumeration is the pair
(r, c). -/
theorem getElem?_cellList :
    ∀ (rows cols r c : ℕ), r < rows → c < cols →
      (cellList rows cols)[r * cols + c]? = some (r, c)
  | 0, _, _, _, hr, _ => absurd hr (Nat.not_lt_zero _)
  | rows + 1, cols, r, c, hr, hc => by
    rw [cellList_succ]
    by_cases hrr : r < rows
    · have hlt : r * cols + c < (cellList rows cols).length := by
        rw [length_cellList]
        have h1 : r * cols + c < (r + 1) * cols := by
          rw [Nat.succ_mul]
          omega
        have h2 : (r + 1) * cols ≤ rows * cols :=
          Nat.mul_le_mul_right cols hrr
        omega
      rw [List.getElem?_append_left hlt]
      exact getElem?_cellList rows cols r c hrr hc
    · have hre : r = rows := by omega
      subst hre
      have hge : (cellList r cols).length ≤ r * cols + c := by
        rw [length_cellList]
        omega
      rw [List.getElem?_append_right hge, length_cellList]
      have hsub : r * cols + c - r * cols = c := by omega
      rw [hsub, List.getElem?_map, List.getElem?_range hc]
      rfl

/-- One-dimensional slot separation: consecutive slots along an axis are
at least a gap apart whenever the cell extent and gap are nonnegative. -/
theorem slot_sep (p g cw : ℚ) (c c' : ℕ) (hcc : c < c')
    (hcw : 0 ≤ cw) (hg : 0 ≤ g) :
    p + (c : ℚ) * (cw + g) + cw + g ≤ p + (c' : ℚ) * (cw + g) := by
  have h1 : (c : ℚ) + 1 ≤ (c' : ℚ) := by exact_mod_cast hcc
  have h2 : ((c : ℚ) + 1) * (cw + g) ≤ (c' : ℚ) * (cw + g) :=
    mul_le_mul_of_nonneg_right h1 (add_nonneg hcw hg)
  nlinarith

/-- Distinct cells have disjoint interiors. -/
theorem cellRect_interior_disjoint (os : OutputSize) (rows cols : ℕ)
    (style : TemplateStyle) (hg : 0 ≤ gap os style) {r c r' c' : ℕ}
    (hne : (r, c) ≠ (r', c')) (pt : ℚ × ℚ)
    (h1 : pt ∈ Rect.interiorPts (cellRect os rows cols style r c))
    (h2 : pt ∈ Rect.interiorPts (cellRect os rows cols style r' c')) :
    False := by
  simp only [Rect.interiorPts, cellRect, Set.mem_setOf_eq] at h1 h2
  obtain ⟨hx1, hx2, hy1, hy2⟩ := h1
  obtain ⟨hx1', hx2', hy1', hy2'⟩ := h2
  have hcw : 0 ≤ cellWidth os cols style := by linarith
  have hch : 0 ≤ cellHeight os rows style := by linarith
  rcases Nat.lt_trichotomy c c' with hcc | hcc | hcc
  · have := slot_sep (padding os) (gap os style) (cellWidth os cols style)
      c c' hcc hcw hg
    linarith
  · subst hcc
    have hrr : r ≠ r' := fun hr => hne (by rw [hr])
    rcases Nat.lt_trichotomy r r' with hr | hr | hr
    · have := slot_sep (padding os) (gap os style) (cellHeight os rows style)
        r r' hr hch hg
      linarith
    · exact hrr hr
    · have := slot_sep (padding os) (gap os style) (cellHeight os rows style)
        r' r hr hch hg
      linarith
  · have := slot_sep (padding os) (gap os style) (cellWidth os cols style)
      c' c hcc hcw hg
    linarith

/-- The total cell extent fills the available width. -/
theorem cols_mul_cellWidth (os : OutputSize) (cols : ℕ)
    (style : TemplateStyle) (hcols : 1 ≤ cols) :
    (cols : ℚ) * cellWidth os cols style =
      os.width - padding os * 2 - gap os style * ((cols : ℚ) - 1) := by
  have hc0 : (cols : ℚ) ≠ 0 := by
    have : cols ≠ 0 := by omega
    exact_mod_cast this
  rw [cellWidth, availableWidth]
  field_simp

/-- The total cell extent fills the available height. -/
theorem rows_mul_cellHeight (os : OutputSize) (rows : ℕ)
    (style : TemplateStyle) (hrows : 1 ≤ rows) :
    (rows : ℚ) * cellHeight os rows style =
      os.height - padding os * 2 - gap os style * ((rows : ℚ) - 1) := by
  have hr0 : (rows : ℚ) ≠ 0 := by
    have : rows ≠ 0 := by omega
    exact_mod_cast this
  rw [cellHeight, availableHeight]
  field_simp

/-- Every cell rectangle lies inside the canvas minus the padding
margin. -/
theorem cellRect_subset_padded (os : OutputSize) (rows cols : ℕ)
    (style : TemplateStyle) (hrows : 1 ≤ rows) (hcols : 1 ≤ cols)
    (hg : 0 ≤ gap os style) {r c : ℕ} (hr : r < rows) (hc : c < cols) :
    Rect.toSet (cellRect os rows cols style r c) ⊆ paddedRegion os := by
  intro pt hpt
  simp only [Rect.toSet, cellRect, Set.mem_setOf_eq] at hpt
  obtain ⟨hx1, hx2, hy1, hy2⟩ := hpt
  have hcw : 0 ≤ cellWidth os cols style := by linarith
  have hch : 0 ≤ cellHeight os rows style := by linarith
  have hcnn : (0 : ℚ) ≤ (c : ℚ) := Nat.cast_nonneg c
  have hrnn : (0 : ℚ) ≤ (r : ℚ) := Nat.cast_nonneg r
  have hc1 : (c : ℚ) ≤ (cols : ℚ) - 1 := by
    have : (c : ℚ) + 1 ≤ (cols : ℚ) := by exact_mod_cast hc
    linarith
  have hr1 : (r : ℚ) ≤ (rows : ℚ) - 1 := by
    have : (r : ℚ) + 1 ≤ (rows : ℚ) := by exact_mod_cast hr
    linarith
  have hW := cols_mul_cellWidth os cols style hcols
  have hH := rows_mul_cellHeight os rows style hrows
  have keyW : padding os + ((cols : ℚ) - 1) *
      (cellWidth os cols style + gap os style) + cellWidth os cols style =
      os.width - padding os := by
    linear_combination hW
  have keyH : padding os + ((rows : ℚ) - 1) *
      (cellHeight os rows style + gap os style) + cellHeight os rows style =
      os.height - padding os := by
    linear_combination hH
  have hmx : (c : ℚ) * (cellWidth os cols style + gap os style) ≤
      ((cols : ℚ) - 1) * (cellWidth os cols style + gap os style) :=
    mul_le_mul_of_nonneg_right hc1 (add_nonneg hcw hg)
  have hmy : (r : ℚ) * (cellHeight os rows style + gap os style) ≤
      ((rows : ℚ) - 1) * (cellHeight os rows style + gap os style) :=
    mul_le_mul_of_nonneg_right hr1 (add_nonneg hch hg)
  have hpx : (0 : ℚ) ≤ (c : ℚ) * (cellWidth os cols style + gap os style) :=
    mul_nonneg hcnn (add_nonneg hcw hg)
  have hpy : (0 : ℚ) ≤ (r : ℚ) * (cellHeight os rows style + gap os style) :=
    mul_nonneg hrnn (add_nonneg hch hg)
  refine ⟨by linarith, by linarith, by linarith, by linarith⟩

/-- C2: for any grid with at least one row and one column on a canvas
with positive dimensions, the cell-rectangle computation yields exactly
rows * cols rectangles in row-major order, all of the same width and the
same height, with pairwise disjoint interiors, each contained in the
canvas minus the padding margin; the padding is two percent of the
smaller canvas dimension and the gap is twice the padding for the
polaroid (framed) style and half the padding for every other style. -/
theorem c2_cell_rects (os : OutputSize) (rows cols : ℕ)
    (style : TemplateStyle) (hrows : 1 ≤ rows) (hcols : 1 ≤ cols)
    (hW : 0 < os.width) (hH : 0 < os.height) :
    (computeCellRects os rows cols style).length = rows * cols
    ∧ (∀ r c, r < rows → c < cols →
        (computeCellRects os rows cols style)[r * cols + c]? =
          some (cellRect os rows cols style r c))
    ∧ (∀ rect ∈ computeCellRects os rows cols style,
        rect.w = cellWidth os cols style ∧ rect.h = cellHeight os rows style)
    ∧ (∀ r c r' c' : ℕ, (r, c) ≠ (r', c') → ∀ pt : ℚ × ℚ,
        pt ∈ Rect.interiorPts (cellRect os rows cols style r c) →
        pt ∈ Rect.interiorPts (cellRect os rows cols style r' c') → False)
    ∧ (∀ rect ∈ computeCellRects os rows cols style,
        Rect.toSet rect ⊆ paddedRegion os)
    ∧ padding os = 0.02 * min os.width os.height
    ∧ gap os TemplateStyle.polaroid = 2 * padding os
    ∧ (∀ s, s ≠ TemplateStyle.polaroid → gap os s = 0.5 * padding os) := by
  have hp := padding_pos os hW hH
  have hg := (gap_pos os style hp).le
  refine ⟨?_, ?_, ?_, ?_, ?_, ?_, ?_, ?_⟩
  · rw [computeCellRects, List.length_map, length_cellList]
  · intro r c hr hc
    rw [computeCellRects, List.getElem?_map,
      getElem?_cellList rows cols r c hr hc]
    rfl
  · intro rect hrect
    simp only [computeCellRects, List.mem_map] at hrect
    obtain ⟨rc, _, rfl⟩ := hrect
    exact ⟨rfl, rfl⟩
  · intro r c r' c' hne pt h1 h2
    exact cellRect_interior_disjoint os rows cols style hg hne pt h1 h2
  · intro rect hrect
    simp only [computeCellRects, List.mem_map] at hrect
    obtain ⟨rc, hrc, rfl⟩ := hrect
    obtain ⟨hr, hc⟩ := mem_cellList.mp hrc
    exact cellRect_subset_padded os rows cols style hrows hcols hg hr hc
  · rw [padding]
    ring
  · rw [gap, if_pos rfl]
    ring
  · intro s hs
    rw [gap, if_neg hs]
    ring

/-- Witness for C2 on a 2 by 2 grid at a 1080 by 1080 canvas. -/
theorem c2_cell_rects_witness :
    ((1 : ℕ) ≤ 2 ∧ (0 : ℚ) < 1080) ∧
    (computeCellRects { width := 1080, height := 1080 } 2 2
      TemplateStyle.grid).length = 2 * 2 :=
  ⟨⟨by decide, by norm_num⟩,
    (c2_cell_rects { width := 1080, height := 1080 } 2 2 TemplateStyle.grid
      (by decide) (by decide) (by norm_num) (by norm_num)).1⟩

/-! ## Claim C6: hit-testing -/

/-- find? locates an element that satisfies the predicate uniquely in the
list. -/
theorem find?_eq_some_of_mem_unique {α : Type} {p : α → Bool} :
    ∀ {l : List α} {a : α}, a ∈ l → p a = true →
      (∀ b ∈ l, p b = true → b = a) → l.find? p = some a
  | [], _, ha, _, _ => absurd ha (List.not_mem_nil _)
  | x :: xs, a, ha, hpa, huniq => by
    by_cases hx : p x = true
    · have hxa : x = a := huniq x (List.mem_cons_self x xs) hx
      subst hxa
      rw [List.find?_cons_of_pos _ hx]
    · rw [List.find?_cons_of_neg _ (by simpa using hx)]
      have hax : a ∈ xs := by
        rcases List.mem_cons.mp ha with h | h
        · exact absurd (h ▸ hpa) hx
        · exact h
      exact find?_eq_some_of_mem_unique hax hpa
        fun b hb hpb => huniq b (List.mem_cons_of_mem x hb) hpb

/-- Unfolded form of the hit-test that names the screen-to-canvas
conversion and the row-major search explicitly. -/
theorem getImageIndexAtPosition_eq (offsetW offsetH w h resolution : ℚ)
    (rows cols : ℕ) (style : TemplateStyle) (numImages : ℕ) (x y : ℚ) :
    getImageIndexAtPosition offsetW offsetH w h resolution rows cols style
        numImages x y =
      match (cellList rows cols).find? (fun rc =>
          decide (rc.1 * cols + rc.2 < numImages) &&
          containsPoint
            (cellRect (calculateOutputSize w h resolution) rows cols style
              rc.1 rc.2)
            (x / (offsetW / (calculateOutputSize w h resolution).width))
            (y / (offsetH / (calculateOutputSize w h resolution).height))) with
      | some rc => ((rc.1 * cols + rc.2 : ℕ) : ℤ)
      | none => -1 := rfl

/-- The center of a cell lies inside that cell. -/
theorem containsPoint_center_self (os : OutputSize) (rows cols : ℕ)
    (style : TemplateStyle) (r c : ℕ)
    (hcw : 0 < cellWidth os cols style)
    (hch : 0 < cellHeight os rows style) :
    containsPoint (cellRect os rows cols style r c)
      (cellCenter os rows cols style r c).1
      (cellCenter os rows cols style r c).2 = true := by
  rw [containsPoint, decide_eq_true_eq]
  simp only [cellCenter, cellRect]
  refine ⟨by linarith, by linarith, by linarith, by linarith⟩

/-- The center of a cell lies strictly outside every other cell. -/
theorem containsPoint_center_ne (os : OutputSize) (rows cols : ℕ)
    (style : TemplateStyle) (hgpos : 0 < gap os style)
    (hcw : 0 < cellWidth os cols style)
    (hch : 0 < cellHeight os rows style) {r c r' c' : ℕ}
    (hne : (r', c') ≠ (r, c)) :
    containsPoint (cellRect os rows cols style r' c')
      (cellCenter os rows cols style r c).1
      (cellCenter os rows cols style r c).2 = false := by
  rw [containsPoint, decide_eq_false_iff_not]
  rintro ⟨h1, h2, h3, h4⟩
  simp only [cellCenter, cellRect] at h1 h2 h3 h4
  rcases Nat.lt_trichotomy c c' with hcc | hcc | hcc
  · have := slot_sep (padding os) (gap os style) (cellWidth os cols style)
      c c' hcc hcw.le hgpos.le
    linarith
  · subst hcc
    have hrr : r' ≠ r := fun hr => hne (by rw [hr])
    rcases Nat.lt_trichotomy r r' with hr | hr | hr
    · have := slot_sep (padding os) (gap os style) (cellHeight os rows style)
        r r' hr hch.le hgpos.le
      linarith
    · exact hrr hr.symm
    · have := slot_sep (padding os) (gap os style) (cellHeight os rows style)
        r' r hr hch.le hgpos.le
      linarith
  · have := slot_sep (padding os) (gap os style) (cellWidth os cols style)
      c' c hcc hcw.le hgpos.le
    linarith

/-- C6: hit-testing inverts cell placement.  A screen point that maps to
the exact center of cell (r, c) resolves to image index r * cols + c
whenever an image exists at that index, resolves to no match (-1) when
that cell has no assigned image, and any screen point whose canvas image
lies in no cell resolves to no match (-1). -/
theorem c6_hit_test (offsetW offsetH w h resolution : ℚ) (os : OutputSize)
    (rows cols : ℕ) (style : TemplateStyle) (numImages : ℕ) (r c : ℕ)
    (hos : calculateOutputSize w h resolution = os)
    (hW : 0 < os.width) (hH : 0 < os.height)
    (hoW : 0 < offsetW) (hoH : 0 < offsetH)
    (hcw : 0 < cellWidth os cols style)
    (hch : 0 < cellHeight os rows style)
    (hr : r < rows) (hc : c < cols) :
    (r * cols + c < numImages →
      getImageIndexAtPosition offsetW offsetH w h resolution rows cols style
        numImages
        ((cellCenter os rows cols style r c).1 * (offsetW / os.width))
        ((cellCenter os rows cols style r c).2 * (offsetH / os.height))
      = ((r * cols + c : ℕ) : ℤ))
    ∧ (numImages ≤ r * cols + c →
      getImageIndexAtPosition offsetW offsetH w h resolution rows cols style
        numImages
        ((cellCenter os rows cols style r c).1 * (offsetW / os.width))
        ((cellCenter os rows cols style r c).2 * (offsetH / os.height))
      = -1)
    ∧ (∀ x y : ℚ,
      (∀ r' c' : ℕ, r' < rows → c' < cols →
        containsPoint (cellRect os rows cols style r' c')
          (x / (offsetW / os.width)) (y / (offsetH / os.height)) = false) →
      getImageIndexAtPosition offsetW offsetH w h resolution rows cols style
        numImages x y = -1) := by
  have hgpos : 0 < gap os style := gap_pos os style (padding_pos os hW hH)
  have hsx : offsetW / os.width ≠ 0 := div_ne_zero hoW.ne' hW.ne'
  have hsy : offsetH / os.height ≠ 0 := div_ne_zero hoH.ne' hH.ne'
  have hxc : ∀ a : ℚ, a * (offsetW / os.width) / (offsetW / os.width) = a :=
    fun a => mul_div_cancel_right₀ a hsx
  have hyc : ∀ a : ℚ, a * (offsetH / os.height) / (offsetH / os.height) = a :=
    fun a => mul_div_cancel_right₀ a hsy
  refine ⟨fun hidx => ?_, fun hidx => ?_, fun x y hout => ?_⟩
  · rw [getImageIndexAtPosition_eq, hos]
    rw [hxc, hyc]
    have hfind : (cellList rows cols).find? (fun rc =>
        decide (rc.1 * cols + rc.2 < numImages) &&
        containsPoint (cellRect os rows cols style rc.1 rc.2)
          (cellCenter os rows cols style r c).1
          (cellCenter os rows cols style r c).2) = some (r, c) := by
      refine find?_eq_some_of_mem_unique (mem_cellList.mpr ⟨hr, hc⟩) ?_ ?_
      · rw [Bool.and_eq_true, decide_eq_true_eq]
        exact ⟨hidx, containsPoint_center_self os rows cols style r c hcw hch⟩
      · rintro ⟨r', c'⟩ _ hpb
        by_contra hbne
        rw [Bool.and_eq_true] at hpb
        have hcont := hpb.2
        rw [containsPoint_center_ne os rows cols style hgpos hcw hch hbne]
          at hcont
        exact absurd hcont (by simp)
    rw [hfind]
  · rw [getImageIndexAtPosition_eq, hos]
    rw [hxc, hyc]
    have hfind : (cellList rows cols).find? (fun rc =>
        decide (rc.1 * cols + rc.2 < numImages) &&
        containsPoint (cellRect os rows cols style rc.1 rc.2)
          (cellCenter os rows cols style r c).1
          (cellCenter os rows cols style r c).2) = none := by
      rw [List.find?_eq_none]
      rintro ⟨r', c'⟩ _ hpb
      rw [Bool.and_eq_true] at hpb
      by_cases hbne : ((r', c') : ℕ × ℕ) = (r, c)
      · rw [Prod.mk.injEq] at hbne
        obtain ⟨rfl, rfl⟩ := hbne
        have := hpb.1
        rw [decide_eq_true_eq] at this
        simp only [Prod.fst, Prod.snd] at this hidx
        omega
      · have hcont := hpb.2
        rw [containsPoint_center_ne os rows cols style hgpos hcw hch hbne]
          at hcont
        exact absurd hcont (by simp)
    rw [hfind]
  · rw [getImageIndexAtPosition_eq, hos]
    have hfind : (cellList rows cols).find? (fun rc =>
        decide (rc.1 * cols + rc.2 < numImages) &&
        containsPoint (cellRect os rows cols style rc.1 rc.2)
          (x / (offsetW / os.width)) (y / (offsetH / os.height))) = none := by
      rw [List.find?_eq_none]
      rintro ⟨r', c'⟩ hb hpb
      obtain ⟨hr', hc'⟩ := mem_cellList.mp hb
      rw [Bool.and_eq_true] at hpb
      have hcont := hpb.2
      rw [hout r' c' hr' hc'] at hcont
      exact absurd hcont (by simp)
    rw [hfind]

/-- Witness for C6: the 2 by 2 grid on a square 1080 canvas displayed at
270 pixels; the screen point over the center of cell (0, 0) resolves to
image index 0. -/
theorem c6_hit_test_witness :
    (calculateOutputSize 1 1 1080 = { width := 1080, height := 1080 }
      ∧ (0 : ℚ) < 1080 ∧ (0 : ℚ) < 270
      ∧ 0 < cellWidth { width := 1080, height := 1080 } 2 TemplateStyle.grid
      ∧ 0 < cellHeight { width := 1080, height := 1080 } 2 TemplateStyle.grid
      ∧ (0 : ℕ) < 2 ∧ 0 * 2 + 0 < 4) ∧
    getImageIndexAtPosition 270 270 1 1 1080 2 2 TemplateStyle.grid 4
      ((cellCenter { width := 1080, height := 1080 } 2 2
          TemplateStyle.grid 0 0).1 * ((270 : ℚ) / 1080))
      ((cellCenter { width := 1080, height := 1080 } 2 2
          TemplateStyle.grid 0 0).2 * ((270 : ℚ) / 1080))
      = ((0 * 2 + 0 : ℕ) : ℤ) := by
  have hos : calculateOutputSize 1 1 1080 = { width := 1080, height := 1080 } := by
    rw [calculateOutputSize, if_pos (by norm_num)]
    norm_num [round_eq]
  have hgap : gap { width := 1080, height := 1080 } TemplateStyle.grid
      = 54 / 5 := by
    rw [gap, if_neg (by decide)]
    norm_num [padding]
  have hcw : 0 < cellWidth { width := 1080, height := 1080 } 2
      TemplateStyle.grid := by
    norm_num [cellWidth, availableWidth, padding, hgap]
  have hch : 0 < cellHeight { width := 1080, height := 1080 } 2
      TemplateStyle.grid := by
    norm_num [cellHeight, availableHeight, padding, hgap]
  refine ⟨⟨hos, by norm_num, by norm_num, hcw, hch, by norm_num, by norm_num⟩, ?_⟩
  exact (c6_hit_test 270 270 1 1 1080 { width := 1080, height := 1080 }
    2 2 TemplateStyle.grid 4 0 0 hos (by norm_num) (by norm_num)
    (by norm_num) (by norm_num) hcw hch (by norm_num) (by norm_num)).1
    (by norm_num)

/-! ## Claim C9: watermark and failed loads -/

/-- C9 counterexample: with two sources of which the first fails to load
and the second loads (as image 5) on a 2 by 1 grid with default
transforms, the failed source's slot (cell 0) is drawn with the second
source's image rather than as an empty placeholder; the empty slot
appears at the trailing cell 1 instead, and the watermark is stamped. -/
theorem c9_counterexample :
    loadedImages [none, some (5 : ℕ)] (2 * 1) = [5]
    ∧ cellContent [(5 : ℕ)] [defaultTransform, defaultTransform] 1 0 0
        = CellContent.image 5 defaultTransform
    ∧ cellContent [(5 : ℕ)] [defaultTransform, defaultTransform] 1 1 0
        = CellContent.placeholder 2
    ∧ watermarkDrawn [(5 : ℕ)] = true :=
  ⟨rfl, rfl, rfl, rfl⟩

/-- C9 amended: the watermark is stamped if and only if at least one of
the first min(images, slots) sources loads successfully; a failed load
does not abort the render, but the successful loads are compacted
forward, so cell k shows the k-th successfully loaded image and the
trailing cells beyond the loaded prefix are the empty placeholders; when
the watermark is stamped and a transform exists at index 0, cell (0, 0)
is drawn with an image. -/
theorem c9_amended {α : Type} (loadResults : List (Option α))
    (transforms : List ImageTransform) (rows cols : ℕ) :
    (watermarkDrawn (loadedImages loadResults (rows * cols)) = true ↔
      ∃ o ∈ loadResults.take (min loadResults.length (rows * cols)), o ≠ none)
    ∧ (∀ r c : ℕ, ∀ (img : α) (t : ImageTransform),
        (loadedImages loadResults (rows * cols))[r * cols + c]? = some img →
        transforms[r * cols + c]? = some t →
        cellContent (loadedImages loadResults (rows * cols)) transforms cols r c
          = CellContent.image img t)
    ∧ (∀ r c : ℕ,
        (loadedImages loadResults (rows * cols)).length ≤ r * cols + c →
        cellContent (loadedImages loadResults (rows * cols)) transforms cols r c
          = CellContent.placeholder (r * cols + c + 1))
    ∧ (watermarkDrawn (loadedImages loadResults (rows * cols)) = true →
        ∀ t, transforms[0]? = some t →
        ∃ img, cellContent (loadedImages loadResults (rows * cols)) transforms
          cols 0 0 = CellContent.image img t) := by
  refine ⟨?_, ?_, ?_, ?_⟩
  · rw [watermarkDrawn, decide_eq_true_eq]
    constructor
    · intro hw
      by_contra hnone
      push_neg at hnone
      have hnil : loadedImages loadResults (rows * cols) = [] := by
        rw [loadedImages, List.filterMap_eq_nil_iff]
        intro a ha
        simpa using hnone a ha
      rw [hnil] at hw
      simp at hw
    · rintro ⟨o, ho, hone⟩
      obtain ⟨a, rfl⟩ := Option.ne_none_iff_exists'.mp hone
      have hmem : a ∈ loadedImages loadResults (rows * cols) := by
        rw [loadedImages]
        exact List.mem_filterMap.mpr ⟨some a, ho, rfl⟩
      exact List.length_pos_of_mem hmem
  · intro r c img t hli ht
    unfold cellContent
    rw [hli, ht]
  · intro r c hge
    unfold cellContent
    rw [List.getElem?_eq_none hge]
  · intro hw t ht
    rw [watermarkDrawn, decide_eq_true_eq] at hw
    refine ⟨(loadedImages loadResults (rows * cols)).get ⟨0, hw⟩, ?_⟩
    unfold cellContent
    have h0 : (0 : ℕ) * cols + 0 = 0 := by omega
    rw [h0, List.getElem?_eq_getElem hw, ht, List.get_eq_getElem]

/-- Witness for the amended C9: the failed first source followed by a
successful load of image 5 in a 2 by 1 grid with default transforms
draws that image in cell (0, 0). -/
theorem c9_amended_witness :
    ((loadedImages [none, some (5 : ℕ)] (2 * 1))[0 * 1 + 0]? = some 5
      ∧ [defaultTransform, defaultTransform][0 * 1 + 0]? = some defaultTransform) ∧
    cellContent (loadedImages [none, some (5 : ℕ)] (2 * 1))
      [defaultTransform, defaultTransform] 1 0 0
      = CellContent.image 5 defaultTransform :=
  ⟨⟨rfl, rfl⟩,
    (c9_amended [none, some 5] [defaultTransform, defaultTransform] 2 1).2.1
      0 0 5 defaultTransform rfl rfl⟩

end MergePics
